import Mathlib

/-!
Verification of the xUpload local relevance engine.

This file gives a shallow embedding of the engine's core: the TF-IDF
tokenizer/vectorizer (src/embeddings.ts, quoted in the repository docs),
cosine similarity search (src/vectordb.ts), and the multi-signal rank
blender of handleMatch (src/content.ts), and proves properties of the
embedded definitions.

Modelling conventions:
- JavaScript numbers are modelled as `Option ℝ`, where `none` models `NaN`
  (reading past the end of an array yields `undefined`, and arithmetic on
  `undefined` yields `NaN`, which propagates).  Exact reals stand in for
  IEEE doubles; rounding is not modelled.
- JavaScript `Map`s are modelled as association lists in insertion order;
  `Map.set` on an existing key overwrites it in place.
- `Array.prototype.sort` (ES2019) is modelled as a stable insertion sort.
  The comparator `(a, b) => b.score - a.score` is a consistent comparator
  only on NaN-free scores; on NaN scores the ECMAScript sort order is
  implementation-defined, and the model fixes an arbitrary total order
  placing `none` first.  Order-sensitive theorems restrict to NaN-free
  scores.
-/

namespace XUpload

noncomputable section

/-! ### JavaScript number model -/

/-- A JavaScript number: `some x` is the real `x`, `none` models `NaN`. -/
abbrev JNum := Option ℝ

/-- Embed a real as a JavaScript number. -/
def jn (x : ℝ) : JNum := some x

/-- Lift a binary real operation to `JNum`; `NaN` propagates. -/
def jbin (f : ℝ → ℝ → ℝ) : JNum → JNum → JNum
  | some a, some b => some (f a b)
  | _, _ => none

/-- JavaScript addition. -/
def jadd : JNum → JNum → JNum := jbin (fun a b => a + b)

/-- JavaScript multiplication. -/
def jmul : JNum → JNum → JNum := jbin (fun a b => a * b)

/-- JavaScript division (denominators are nonzero at every use site). -/
def jdiv : JNum → JNum → JNum := jbin (fun a b => a / b)

/-- JavaScript `Math.max` on two arguments; `NaN` propagates. -/
def jmax : JNum → JNum → JNum := jbin max

/-- JavaScript `Math.sqrt`: `NaN` on negative input, `NaN` propagates. -/
def jsqrt : JNum → JNum
  | some a => if a < 0 then none else some (Real.sqrt a)
  | none => none

/-- JavaScript `<` as a boolean test: any comparison with `NaN` is false. -/
def jltB : JNum → JNum → Bool
  | some a, some b => decide (a < b)
  | _, _ => false

/-! ### Character-level string primitives

JavaScript strings are modelled as their character lists; the string
functions used by the engine are re-implemented structurally on
`List Char` so that concrete inputs evaluate inside Lean. -/

/-- JavaScript `toLowerCase`, modelled on ASCII letters. -/
def jsToLowerChar (c : Char) : Char :=
  if (decide ('A' ≤ c) && decide (c ≤ 'Z')) = true then Char.ofNat (c.toNat + 32)
  else c

/-- Whitespace recognized by the model of JavaScript `trim`. -/
def isWsChar (c : Char) : Bool :=
  c = ' ' || c = '\t' || c = '\n' || c = '\r'

/-- JavaScript `String.prototype.trim` on character lists. -/
def trimL (l : List Char) : List Char :=
  ((l.dropWhile isWsChar).reverse.dropWhile isWsChar).reverse

/-- Maximal runs of characters satisfying `p`, as matched by a global regex
such as `/[a-z0-9]+/g`. -/
def runsOf (p : Char → Bool) : List Char → List (List Char)
  | [] => []
  | [c] => if p c then [[c]] else []
  | c :: d :: cs =>
    if p c then
      if p d then
        match runsOf p (d :: cs) with
        | r :: rs => (c :: r) :: rs
        | [] => [[c]]
      else [c] :: runsOf p (d :: cs)
    else runsOf p (d :: cs)

/-- JavaScript `String.prototype.split` with a single-character separator. -/
def splitOnChar (sep : Char) : List Char → List (List Char)
  | [] => [[]]
  | c :: cs =>
    if c = sep then [] :: splitOnChar sep cs
    else
      match splitOnChar sep cs with
      | [] => [[c]]
      | g :: gs => (c :: g) :: gs

/-- `Array.prototype.join` / `String.intercalate` with a single-character
separator. -/
def joinChar (sep : Char) : List (List Char) → List Char
  | [] => []
  | [g] => g
  | g :: gs => g ++ sep :: joinChar sep gs

/-- JavaScript `String.prototype.startsWith` on character lists. -/
def startsWithL (pat l : List Char) : Bool := decide (l.take pat.length = pat)

/-- JavaScript `String.prototype.endsWith` on character lists. -/
def endsWithL (pat l : List Char) : Bool :=
  decide (l.drop (l.length - pat.length) = pat)

/-- JavaScript `String.prototype.replace` with a plain-string pattern: only
the first occurrence is replaced. -/
def replaceFirstL (pat rep : List Char) : List Char → List Char
  | [] => []
  | c :: cs =>
    if startsWithL pat (c :: cs) then rep ++ (c :: cs).drop pat.length
    else c :: replaceFirstL pat rep cs

/-! ### Tokenizer (src/embeddings.ts, quoted in the docs) -/

/-- Character class of the regex `[a-z0-9]` used on the lowercased input. -/
def isAlnumLower (c : Char) : Bool :=
  (decide ('a' ≤ c) && decide (c ≤ 'z')) || (decide ('0' ≤ c) && decide (c ≤ '9'))

/-- Character class of the CJK ranges `[一-鿿㐀-䶿]`. -/
def isCJK (c : Char) : Bool :=
  (decide (0x4e00 ≤ c.toNat) && decide (c.toNat ≤ 0x9fff)) ||
  (decide (0x3400 ≤ c.toNat) && decide (c.toNat ≤ 0x4dbf))

/-- Model of `tokenize` (embeddings.ts): lowercase and trim, extract maximal
alphanumeric runs, then every CJK character, then every adjacent CJK bigram. -/
def tokenize (text : String) : List String :=
  let normalized := trimL (text.data.map jsToLowerChar)
  let words := (runsOf isAlnumLower normalized).map (fun cs => String.mk cs)
  let cjk := normalized.filter isCJK
  let bigrams := (cjk.zip cjk.tail).map (fun p => String.mk [p.1, p.2])
  words ++ cjk.map (fun c => String.mk [c]) ++ bigrams

/-- Modelled from the spec: `tokenizeFiltered` lives in src/embeddings.ts,
which is absent from the sources (only `tokenize`, `buildVocabulary` and
`vectorize` are quoted in the docs).  Per the spec it performs the identical
extraction, then removes terms present in a fixed stop-word set and terms
shorter than a minimum length; the stop-word set and minimum length are taken
as parameters. -/
def tokenizeFiltered (stopWordSet : List String) (minLen : ℕ) (text : String) :
    List String :=
  (tokenize text).filter (fun t => !stopWordSet.contains t && decide (minLen ≤ t.length))

/-! ### Association lists modelling JavaScript Maps -/

/-- JavaScript `Map.get`, as an association-list lookup (first match). -/
def alGet {α : Type} (m : List (String × α)) (k : String) : Option α :=
  (m.find? (fun e => e.1 == k)).map (fun e => e.2)

/-- JavaScript `Map.set`: overwrite the first entry with this key in place,
or append a new entry. -/
def alSet {α : Type} : List (String × α) → String → α → List (String × α)
  | [], k, v => [(k, v)]
  | e :: es, k, v => if e.1 == k then (k, v) :: es else e :: alSet es k v

/-! ### Cosine similarity and search (src/vectordb.ts) -/

/-- One stored file record (vectordb.ts `VectorRecord`). -/
structure VectorRecord where
  id : String
  name : String
  path : String
  type : String
  size : ℝ
  lastModified : ℝ
  vector : List ℝ
  denseVector : Option (List ℝ)
  textPreview : String

/-- Accumulation of `dot` in `cosine`: the loop index runs over `a`; reading
past the end of `b` yields `undefined`, whose product is `NaN`. -/
def dotJ : List ℝ → List ℝ → JNum
  | [], _ => jn 0
  | x :: xs, [] => jadd (jmul (jn x) none) (dotJ xs [])
  | x :: xs, y :: ys => jadd (jmul (jn x) (jn y)) (dotJ xs ys)

/-- Accumulation of `normA` in `cosine`: a sum of squares of `a`, always real. -/
def sqSum (a : List ℝ) : ℝ := (a.map (fun x => x * x)).sum

/-- Accumulation of `normB` in `cosine`: squares of `b` read at the indices
of `a`; past the end of `b` the accumulator becomes `NaN`. -/
def normBJ : List ℝ → List ℝ → JNum
  | [], _ => jn 0
  | _ :: xs, [] => jadd (jmul none none) (normBJ xs [])
  | _ :: xs, y :: ys => jadd (jmul (jn y) (jn y)) (normBJ xs ys)

/-- Model of `cosine` (vectordb.ts:109-118).  The `=== 0` guards compare the
accumulators with `0`; `NaN === 0` is false. -/
def cosine (a b : List ℝ) : JNum :=
  let dot := dotJ a b
  let normA := sqSum a
  let normB := normBJ a b
  if normA = 0 ∨ normB = jn 0 then jn 0
  else jdiv dot (jmul (jsqrt (jn normA)) (jsqrt normB))

/-- The comma-separated, trimmed, lowercased accept patterns
(vectordb.ts:134). -/
def acceptsOf (acceptFilter : String) : List (List Char) :=
  (splitOnChar ',' acceptFilter.data).map (fun s => (trimL s).map jsToLowerChar)

/-- One accept pattern matching a record (vectordb.ts:136-143): extension,
exact MIME type, or MIME wildcard. -/
def matchesAccept (accepts : List (List Char)) (r : VectorRecord) : Bool :=
  let ext := '.' :: ((splitOnChar '.' r.name.data).getLastD []).map jsToLowerChar
  let mime := r.type.data.map jsToLowerChar
  accepts.any (fun a =>
    a == ext || a == mime ||
    (endsWithL ['/', '*'] a && startsWithL (replaceFirstL ['/', '*'] ['/'] a) mime))

/-- Candidate narrowing of `search` (vectordb.ts:131-146).  JavaScript
`if (acceptFilter)` is false for the empty string; if the filter matches no
record the full set is kept. -/
def searchCandidates (acceptFilter : Option String) (all : List VectorRecord) :
    List VectorRecord :=
  match acceptFilter with
  | none => all
  | some af =>
    if af = "" then all
    else if 0 < (all.filter (matchesAccept (acceptsOf af))).length then
      all.filter (matchesAccept (acceptsOf af))
    else all

/-- The scored candidate list of `search` (vectordb.ts:149). -/
def searchScored (queryVector : List ℝ) (acceptFilter : Option String)
    (all : List VectorRecord) : List (VectorRecord × JNum) :=
  (searchCandidates acceptFilter all).map (fun r => (r, cosine queryVector r.vector))

/-- Score comparison underlying the sort comparator
`(a, b) => b.score - a.score`: `jGe a b` holds when `a` may come before `b`
in the descending output.  On `NaN` the ECMAScript order is
implementation-defined; the model places `none` first, a fixed total order. -/
def jGe : JNum → JNum → Prop
  | some a, some b => b ≤ a
  | none, _ => True
  | some _, none => False

/-- Order relation of `.sort((a, b) => b.score - a.score)`: descending by
score. -/
def scoreBefore (x y : VectorRecord × JNum) : Prop := jGe x.2 y.2

instance : DecidableRel jGe := by
  intro a b
  cases a with
  | none => exact isTrue trivial
  | some x =>
    cases b with
    | none => exact isFalse (fun h => h)
    | some y => exact inferInstanceAs (Decidable (y ≤ x))

instance : DecidableRel scoreBefore := fun x y =>
  inferInstanceAs (Decidable (jGe x.2 y.2))

instance : IsTotal (VectorRecord × JNum) scoreBefore := by
  constructor
  intro x y
  unfold scoreBefore
  generalize x.2 = a
  generalize y.2 = b
  cases a with
  | none => exact Or.inl trivial
  | some u =>
    cases b with
    | none => exact Or.inr trivial
    | some v => exact (le_total v u).imp (fun h => h) (fun h => h)

instance : IsTrans (VectorRecord × JNum) scoreBefore := by
  constructor
  intro x y z
  unfold scoreBefore
  generalize x.2 = a
  generalize y.2 = b
  generalize z.2 = c
  intro hab hbc
  cases a with
  | none => exact trivial
  | some u =>
    cases b with
    | none => exact hab.elim
    | some v =>
      cases c with
      | none => exact hbc.elim
      | some w => exact le_trans (hbc : w ≤ v) (hab : v ≤ u)

/-- The positive-score filter `.filter((r) => r.score > 0)`. -/
def posScoreB (x : VectorRecord × JNum) : Bool := jltB (jn 0) x.2

/-- Model of `search` (vectordb.ts:125-153): score all candidates, sort
descending, slice to `topN`, then drop nonpositive scores. -/
def search (queryVector : List ℝ) (topN : ℕ) (acceptFilter : Option String)
    (all : List VectorRecord) : List (VectorRecord × JNum) :=
  ((List.insertionSort scoreBefore (searchScored queryVector acceptFilter all)).take
    topN).filter posScoreB

/-! ### Vocabulary model and vectorizer (src/embeddings.ts, quoted in the docs) -/

/-- The module-global vocabulary state of embeddings.ts: `vocabulary` maps a
term to its index, `idfValues` maps a term to its IDF weight. -/
structure VocabModel where
  vocabulary : List (String × ℕ)
  idfValues : List (String × ℝ)

/-- The term-frequency map of `vectorize`: JavaScript `Map` insertion-order
fold of `tf.set(t, (tf.get(t) || 0) + 1)`. -/
def tfMap (tokens : List String) : List (String × ℕ) :=
  tokens.foldl (fun m t => alSet m t ((alGet m t).getD 0 + 1)) []

/-- Model of `vectorize` (embeddings.ts:76-105): zero-length result for an
empty vocabulary, otherwise a TF-IDF vector of dimension `vocabulary.size`,
L2-normalized unless its norm is `0`. -/
def vectorize (model : VocabModel) (tokens : List String) : List ℝ :=
  let dim := model.vocabulary.length
  if dim = 0 then []
  else
    let tf := tfMap tokens
    let maxTf : ℕ := (tf.map (fun e => e.2)).foldl max 1
    let vec := tf.foldl (fun v e =>
      match alGet model.vocabulary e.1 with
      | some idx => v.set idx (((e.2 : ℝ) / (maxTf : ℝ)) *
          ((alGet model.idfValues e.1).getD 1))
      | none => v) (List.replicate dim (0 : ℝ))
    let norm := Real.sqrt (sqSum vec)
    if 0 < norm then vec.map (fun v => v / norm) else vec

/-! ### Upload history signals (src/content.ts handleMatch) -/

/-- One upload-history row (types.ts `UploadHistoryEntry`). -/
structure UploadHistoryEntry where
  fileId : String
  fileName : String
  fileType : String
  websiteHost : String
  pageUrl : String
  pageTitle : String
  uploadContext : String
  timestamp : ℝ

/-- Milliseconds per day (content.ts:1536). -/
def ONE_DAY : ℝ := 24 * 60 * 60 * 1000

/-- The per-file history aggregate of content.ts:1525-1534: for each
`fileId`, the number of entries and the latest timestamp. -/
def buildHistoryMap (history : List UploadHistoryEntry) :
    List (String × ℕ × ℝ) :=
  history.foldl (fun m h =>
    match alGet m h.fileId with
    | none => alSet m h.fileId (1, h.timestamp)
    | some e => alSet m h.fileId (e.1 + 1, max e.2 h.timestamp)) []

/-- The history boost of content.ts:1542-1549: `0` with no matching entry,
otherwise `max(0.1, 1.0 - daysAgo / 90)` from the latest matching entry. -/
def historyBoostOf (history : List UploadHistoryEntry) (id : String)
    (now : ℝ) : ℝ :=
  match alGet (buildHistoryMap history) id with
  | none => 0
  | some e => max 0.1 (1 - ((now - e.2) / ONE_DAY) / 90)

/-- The folder of a file id (content.ts:1520-1521 and 1555-1556): all path
segments but the last, joined by `/`; `""` for a bare file name. -/
def folderOf (fileId : String) : String :=
  let parts := splitOnChar '/' fileId.data
  if 1 < parts.length then String.mk (joinChar '/' parts.dropLast) else ""

/-- The folder-frequency map of content.ts:1518-1523. -/
def buildFolderFreq (history : List UploadHistoryEntry) :
    List (String × ℕ) :=
  history.foldl (fun m h =>
    alSet m (folderOf h.fileId) ((alGet m (folderOf h.fileId)).getD 0 + 1)) []

/-- Total uploads counted by the folder-frequency map (content.ts:1524). -/
def totalFolderUploads (history : List UploadHistoryEntry) : ℕ :=
  ((buildFolderFreq history).map (fun e => e.2)).sum

/-- The folder-frequency boost for one folder (content.ts:1557-1559). -/
def folderBoostOfFolder (history : List UploadHistoryEntry)
    (folder : String) : ℝ :=
  if 0 < totalFolderUploads history then
    ((alGet (buildFolderFreq history) folder).getD 0 : ℝ) /
      (totalFolderUploads history : ℝ)
  else 0

/-- The folder-frequency boost of a candidate record path
(content.ts:1555-1559). -/
def folderBoostOf (history : List UploadHistoryEntry) (path : String) : ℝ :=
  folderBoostOfFolder history (folderOf path)

/-! ### Keyword-overlap signals (src/content.ts:1413-1446) -/

/-- The separator replacement `path.replace(/[/\\._-]/g, " ")`. -/
def replaceSeps (s : String) : String :=
  String.mk (s.data.map (fun c =>
    if c = '/' ∨ c = '\\' ∨ c = '.' ∨ c = '_' ∨ c = '-' then ' ' else c))

/-- Model of `computePathNameScore` (content.ts:1413-1427): overlap
coefficient of the distinct filtered tokens of the separator-normalized path
against the distinct filtered tokens of the context.  JavaScript `Set`s are
modelled by `List.dedup` (same members, cardinality and iteration counts). -/
def computePathNameScore (stopWordSet : List String) (minLen : ℕ)
    (filePath context : String) : ℝ :=
  let pathTokens := (tokenizeFiltered stopWordSet minLen (replaceSeps filePath)).dedup
  let contextTokens := (tokenizeFiltered stopWordSet minLen context).dedup
  if pathTokens.length = 0 ∨ contextTokens.length = 0 then 0
  else
    let hits := pathTokens.countP (fun t => contextTokens.contains t)
    let minSize := min pathTokens.length contextTokens.length
    (hits : ℝ) / (minSize : ℝ)

/-- Model of `computeContentOverlap` (content.ts:1433-1446): the same overlap
coefficient on the text-preview tokens, counting over the context tokens. -/
def computeContentOverlap (stopWordSet : List String) (minLen : ℕ)
    (textPreview context : String) : ℝ :=
  let fileTokens := (tokenizeFiltered stopWordSet minLen textPreview).dedup
  let contextTokens := (tokenizeFiltered stopWordSet minLen context).dedup
  if fileTokens.length = 0 ∨ contextTokens.length = 0 then 0
  else
    let hits := contextTokens.countP (fun t => fileTokens.contains t)
    let minSize := min fileTokens.length contextTokens.length
    (hits : ℝ) / (minSize : ℝ)

/-! ### Rank blender (src/content.ts handleMatch) -/

/-- One weight profile of the blender (content.ts:1562-1568). -/
structure Weights where
  tfidf : ℝ
  history : ℝ
  path : ℝ
  content : ℝ
  pathMemory : ℝ

/-- The four weight profiles, keyed by `tfidfUseful` and `hasHistory`
(content.ts:1562-1568). -/
def weightsFor : Bool → Bool → Weights
  | true, true => ⟨0.42, 0.28, 0.14, 0.08, 0.08⟩
  | true, false => ⟨0.56, 0.00, 0.22, 0.14, 0.08⟩
  | false, true => ⟨0.00, 0.36, 0.30, 0.20, 0.14⟩
  | false, false => ⟨0.00, 0.00, 0.44, 0.42, 0.14⟩

/-- Sum of the five components of a weight profile. -/
def weightSum (w : Weights) : ℝ :=
  w.tfidf + w.history + w.path + w.content + w.pathMemory

/-- The blended final score of one candidate (content.ts:1539-1575).  The
candidate carries the TF-IDF score assigned by `search` (or `0` in the
fallback); all other signals are recomputed here. -/
def finalScoreOf (stopWordSet : List String) (minLen : ℕ)
    (history : List UploadHistoryEntry) (context : String) (now : ℝ)
    (tfidfUseful : Bool) (r : VectorRecord × JNum) : JNum :=
  let historyBoost := historyBoostOf history r.1.id now
  let pathNameScore := computePathNameScore stopWordSet minLen r.1.path context
  let contentOverlap := computeContentOverlap stopWordSet minLen r.1.textPreview context
  let folderBoost := folderBoostOf history r.1.path
  let hasHistory : Bool := decide (0 < historyBoost)
  let w := weightsFor tfidfUseful hasHistory
  jadd (jadd (jadd (jadd (jmul r.2 (jn w.tfidf)) (jmul (jn historyBoost) (jn w.history)))
    (jmul (jn pathNameScore) (jn w.path)))
    (jmul (jn contentOverlap) (jn w.content)))
    (jmul (jn folderBoost) (jn w.pathMemory))

/-- The TF-IDF candidate stage of `handleMatch` (content.ts:1462-1472): the
context is tokenized and vectorized with the live vocabulary; `search` runs
with top 15 only when the query vector is nonempty. -/
def tfidfResultsOf (model : VocabModel) (records : List VectorRecord)
    (context : String) (accept : Option String) : List (VectorRecord × JNum) :=
  let queryVec := vectorize model (tokenize context)
  if 0 < queryVec.length then search queryVec 15 accept records else []

/-- The maximum TF-IDF score of content.ts:1474-1476: `Math.max` over the
candidate scores, `0` for an empty candidate list. -/
def maxTfidfOf (model : VocabModel) (records : List VectorRecord)
    (context : String) (accept : Option String) : JNum :=
  match tfidfResultsOf model records context accept with
  | [] => jn 0
  | x :: xs => xs.foldl (fun acc r => jmax acc r.2) x.2

/-- The `tfidfUseful` flag of content.ts:1477: `maxTfidf > 0.05`. -/
def tfidfUsefulOf (model : VocabModel) (records : List VectorRecord)
    (context : String) (accept : Option String) : Bool :=
  jltB (jn 0.05) (maxTfidfOf model records context accept)

/-- The candidate set actually ranked (content.ts:1484-1494): the search
results when the TF-IDF signal is useful, otherwise every stored record with
content score `0`. -/
def handleMatchCandidates (model : VocabModel) (records : List VectorRecord)
    (context : String) (accept : Option String) : List (VectorRecord × JNum) :=
  if tfidfUsefulOf model records context accept then
    tfidfResultsOf model records context accept
  else records.map (fun r => (r, jn 0))

/-- The ranked output of `handleMatch` (content.ts:1539-1593): blend the
signals, sort descending by final score, slice to the top 5, drop
nonpositive scores. -/
def handleMatchTop (stopWordSet : List String) (minLen : ℕ)
    (model : VocabModel) (records : List VectorRecord)
    (history : List UploadHistoryEntry) (context : String)
    (accept : Option String) (now : ℝ) : List (VectorRecord × JNum) :=
  let tfidfUseful := tfidfUsefulOf model records context accept
  let ranked := (handleMatchCandidates model records context accept).map
    (fun r => (r.1, finalScoreOf stopWordSet minLen history context now tfidfUseful r))
  ((List.insertionSort scoreBefore ranked).take 5).filter posScoreB

/-! ### Spec-side definitions (for refinement statements) -/

/-- The overlap coefficient as the spec words it: the intersection size over
the smaller set size. -/
def overlapCoeff (A B : Finset String) : ℝ :=
  ((A ∩ B).card : ℝ) / ((min A.card B.card : ℕ) : ℝ)

/-- The timestamps of the history entries matching a file id, in history
order; the most recent matching entry carries their maximum. -/
def mtsOf (id : String) (history : List UploadHistoryEntry) : List ℝ :=
  (history.filter (fun h => h.fileId == id)).map (fun h => h.timestamp)

/-! ### Concrete data for witnesses and counterexamples -/

/-- A stored record whose vector matches a one-term vocabulary. -/
def recA : VectorRecord :=
  ⟨"docs/a.txt", "a.txt", "docs/a.txt", "text/plain", 1, 0, [1], none, "alpha"⟩

/-- A stored record whose vector is longer than the live vocabulary. -/
def recStale : VectorRecord :=
  ⟨"docs/b.txt", "b.txt", "docs/b.txt", "text/plain", 1, 0, [1, 1], none, "beta"⟩

/-- A stored PDF record, for accept-filter witnesses. -/
def recPdf : VectorRecord :=
  ⟨"docs/c.pdf", "c.pdf", "docs/c.pdf", "application/pdf", 1, 0, [1], none, "gamma"⟩

/-- The empty vocabulary model. -/
def vocabM0 : VocabModel := ⟨[], []⟩

/-- A one-term vocabulary model. -/
def vocabM1 : VocabModel := ⟨[("alpha", 0)], [("alpha", 1)]⟩

/-- A concrete history entry for witnesses. -/
def histEntry (fileId : String) (ts : ℝ) : UploadHistoryEntry :=
  ⟨fileId, "f", "application/pdf", "example.com", "https://example.com", "t", "ctx", ts⟩

/-- A concrete two-entry history over two folders. -/
def histW : List UploadHistoryEntry :=
  [histEntry "23S/OS/HW1.pdf" 0, histEntry "23S/CS/lab1.pdf" 0]

end

/-! ## Basic lemmas about the JavaScript number model -/

theorem jbin_none_left (f : ℝ → ℝ → ℝ) (x : JNum) : jbin f none x = none := by
  cases x <;> rfl

theorem jbin_none_right (f : ℝ → ℝ → ℝ) (x : JNum) : jbin f x none = none := by
  cases x <;> rfl

theorem jbin_some_some (f : ℝ → ℝ → ℝ) (a b : ℝ) :
    jbin f (some a) (some b) = some (f a b) := rfl

theorem jltB_none_right (x : JNum) : jltB x none = false := by
  cases x <;> rfl

theorem jltB_some_some (a b : ℝ) : jltB (some a) (some b) = decide (a < b) := rfl

theorem posScoreB_eq_true {x : VectorRecord × JNum} :
    posScoreB x = true ↔ ∃ s : ℝ, x.2 = some s ∧ 0 < s := by
  unfold posScoreB jn
  constructor
  · intro h
    match hx : x.2 with
    | none => rw [hx] at h; exact absurd h (by simp [jltB_none_right])
    | some s =>
      rw [hx] at h
      rw [jltB_some_some] at h
      exact ⟨s, rfl, of_decide_eq_true h⟩
  · intro ⟨s, hs, hpos⟩
    rw [hs, jltB_some_some]
    exact decide_eq_true hpos

/-! ## Lemmas about cosine similarity -/

theorem sqSum_nonneg (a : List ℝ) : 0 ≤ sqSum a := by
  unfold sqSum
  apply List.sum_nonneg
  intro y hy
  obtain ⟨x, _, hx⟩ := List.mem_map.mp hy
  rw [← hx]
  exact mul_self_nonneg x

theorem dotJ_eq_take (a b : List ℝ) : dotJ a b = dotJ a (b.take a.length) := by
  induction a generalizing b with
  | nil => rfl
  | cons x xs ih =>
    cases b with
    | nil => rfl
    | cons y ys => simp only [dotJ, List.length_cons, List.take_succ_cons, ih ys]

theorem normBJ_eq_take (a b : List ℝ) : normBJ a b = normBJ a (b.take a.length) := by
  induction a generalizing b with
  | nil => rfl
  | cons x xs ih =>
    cases b with
    | nil => rfl
    | cons y ys => simp only [normBJ, List.length_cons, List.take_succ_cons, ih ys]

theorem cosine_eq_take (a b : List ℝ) : cosine a b = cosine a (b.take a.length) := by
  unfold cosine
  rw [← dotJ_eq_take, ← normBJ_eq_take]

theorem normBJ_none_of_lt (a b : List ℝ) (h : b.length < a.length) :
    normBJ a b = none := by
  induction a generalizing b with
  | nil => simp at h
  | cons x xs ih =>
    cases b with
    | nil =>
      show jadd (jmul none none) (normBJ xs []) = none
      unfold jadd jmul
      rw [jbin_none_left, jbin_none_left]
    | cons y ys =>
      show jadd (jmul (jn y) (jn y)) (normBJ xs ys) = none
      rw [ih ys (by simpa using Nat.lt_of_succ_lt_succ h)]
      unfold jadd
      rw [jbin_none_right]

theorem dotJ_some_of_le (a b : List ℝ) (h : a.length ≤ b.length) :
    ∃ v : ℝ, dotJ a b = some v := by
  induction a generalizing b with
  | nil => exact ⟨0, rfl⟩
  | cons x xs ih =>
    cases b with
    | nil => simp at h
    | cons y ys =>
      obtain ⟨v, hv⟩ := ih ys (Nat.le_of_succ_le_succ h)
      refine ⟨x * y + v, ?_⟩
      show jadd (jmul (jn x) (jn y)) (dotJ xs ys) = some (x * y + v)
      rw [hv]
      rfl

theorem normBJ_some_of_le (a b : List ℝ) (h : a.length ≤ b.length) :
    ∃ v : ℝ, normBJ a b = some v ∧ 0 ≤ v := by
  induction a generalizing b with
  | nil => exact ⟨0, rfl, le_refl 0⟩
  | cons x xs ih =>
    cases b with
    | nil => simp at h
    | cons y ys =>
      obtain ⟨v, hv, hv0⟩ := ih ys (Nat.le_of_succ_le_succ h)
      refine ⟨y * y + v, ?_, add_nonneg (mul_self_nonneg y) hv0⟩
      show jadd (jmul (jn y) (jn y)) (normBJ xs ys) = some (y * y + v)
      rw [hv]
      rfl

theorem jsqrt_some_of_nonneg (a : ℝ) (h : 0 ≤ a) :
    jsqrt (some a) = some (Real.sqrt a) := by
  simp only [jsqrt, if_neg (not_lt.mpr h)]

theorem cosine_some_of_le (a b : List ℝ) (h : a.length ≤ b.length) :
    ∃ s : ℝ, cosine a b = some s := by
  unfold cosine
  by_cases hg : sqSum a = 0 ∨ normBJ a b = jn 0
  · exact ⟨0, by rw [if_pos hg]; rfl⟩
  · rw [if_neg hg]
    obtain ⟨d, hd⟩ := dotJ_some_of_le a b h
    obtain ⟨v, hv, hv0⟩ := normBJ_some_of_le a b h
    rw [hd, hv]
    rw [show jn (sqSum a) = some (sqSum a) from rfl]
    rw [jsqrt_some_of_nonneg (sqSum a) (sqSum_nonneg a), jsqrt_some_of_nonneg v hv0]
    exact ⟨d / (Real.sqrt (sqSum a) * Real.sqrt v), rfl⟩

theorem cosine_none_of_lt (a b : List ℝ) (hb : b.length < a.length)
    (ha : sqSum a ≠ 0) : cosine a b = none := by
  unfold cosine
  have hnb : normBJ a b = none := normBJ_none_of_lt a b hb
  rw [if_neg (by rw [hnb]; exact fun h => h.elim ha (fun h2 => by simp [jn] at h2))]
  rw [hnb]
  unfold jsqrt
  unfold jmul jdiv
  rw [jbin_none_right, jbin_none_right]

/-! ## Membership lemmas for search -/

theorem mem_search {q : List ℝ} {n : ℕ} {af : Option String}
    {all : List VectorRecord} {x : VectorRecord × JNum}
    (hx : x ∈ search q n af all) :
    x ∈ searchScored q af all ∧ posScoreB x = true := by
  unfold search at hx
  have h1 := List.mem_filter.mp hx
  exact ⟨(List.mem_insertionSort scoreBefore).mp (List.mem_of_mem_take h1.1), h1.2⟩

theorem mem_searchScored {q : List ℝ} {af : Option String}
    {all : List VectorRecord} {x : VectorRecord × JNum}
    (hx : x ∈ searchScored q af all) :
    x.1 ∈ searchCandidates af all ∧ x.2 = cosine q x.1.vector := by
  unfold searchScored at hx
  obtain ⟨r, hr, hxr⟩ := List.mem_map.mp hx
  rw [← hxr]
  exact ⟨hr, rfl⟩

/-! ## Claim C1: handling of dimension-mismatched stored vectors -/

/-- C1 counterexample: the claim that a record whose stored vector length
disagrees with the query length is excluded from cosine comparison is false.
With the one-term query vector `[1]`, the record `recStale` (vector `[1, 1]`,
length 2) is compared anyway — the comparison silently truncates the stored
vector to the query length, yields score `1`, and the record is returned. -/
theorem C1_counterexample :
    recStale.vector.length ≠ ([(1 : ℝ)]).length ∧
    search [(1 : ℝ)] 5 none [recStale] = [(recStale, jn 1)] := by
  constructor
  · norm_num [recStale]
  · norm_num [search, searchScored, searchCandidates, cosine, dotJ, normBJ, sqSum,
      jadd, jmul, jdiv, jbin, jsqrt, jn, recStale, List.insertionSort,
      List.orderedInsert, posScoreB, jltB, Real.sqrt_one]

/-- C1 (amended): `search` performs no dimension check.  A record whose
stored vector is shorter than a query with a nonzero component gets a `NaN`
score and never appears in the returned results, while a record whose stored
vector is at least as long as the query is compared with the stored vector
silently truncated to the query length. -/
theorem C1_stale_vector_handling :
    (∀ (q : List ℝ) (n : ℕ) (af : Option String) (all : List VectorRecord),
      sqSum q ≠ 0 → ∀ x ∈ search q n af all, q.length ≤ x.1.vector.length)
    ∧ ∀ (a b : List ℝ), cosine a b = cosine a (b.take a.length) := by
  constructor
  · intro q n af all hq x hx
    by_contra hlt
    push_neg at hlt
    obtain ⟨hss, hpos⟩ := mem_search hx
    obtain ⟨_, hcos⟩ := mem_searchScored hss
    obtain ⟨s, hs, _⟩ := posScoreB_eq_true.mp hpos
    rw [hcos, cosine_none_of_lt q x.1.vector hlt hq] at hs
    exact Option.noConfusion hs
  · exact cosine_eq_take

/-- C1 witness: the amended statement applied at the query `[1]` (nonzero
norm) over the store `[recA]`. -/
theorem C1_stale_vector_handling_witness :
    sqSum [(1 : ℝ)] ≠ 0 ∧
    ∀ x ∈ search [(1 : ℝ)] 5 none [recA], ([(1 : ℝ)]).length ≤ x.1.vector.length :=
  ⟨by norm_num [sqSum],
    C1_stale_vector_handling.1 [(1 : ℝ)] 5 none [recA] (by norm_num [sqSum])⟩

/-! ## Claim C2: vectorize on an empty token list -/

/-- C2 counterexample: the claim that `vectorize` of an empty token list is a
zero-length vector for every model is false.  With the non-empty one-term
model `vocabM1`, `vectorize vocabM1 (tokenize "")` is the one-entry vector
`[0]`, not `[]` — the zero-length result only happens for an empty model. -/
theorem C2_counterexample : vectorize vocabM1 (tokenize "") ≠ [] := by
  rw [show tokenize "" = [] from by decide]
  norm_num [vectorize, vocabM1, tfMap, sqSum, Real.sqrt_zero]

/-- C2 (amended): `tokenize ""` is the empty token list, and `vectorize` of
the empty token list is the all-zeros vector whose length is the vocabulary
size — zero-length exactly when the model is empty. -/
theorem C2_empty_tokens_vector (model : VocabModel) :
    tokenize "" = [] ∧
    vectorize model [] = List.replicate model.vocabulary.length 0 := by
  refine ⟨by decide, ?_⟩
  unfold vectorize tfMap
  by_cases hd : model.vocabulary.length = 0
  · rw [if_pos hd, hd]
    rfl
  · rw [if_neg hd]
    have hz : sqSum (List.replicate model.vocabulary.length (0 : ℝ)) = 0 := by
      unfold sqSum
      rw [List.map_replicate]
      simp
    simp only [List.foldl_nil, List.map_nil, hz, Real.sqrt_zero, lt_irrefl,
      if_false]

/-! ## Claim C3: slicing to topN before dropping nonpositive scores -/

theorem sorted_take_filter_comm (l : List (VectorRecord × JNum))
    (hs : List.Sorted scoreBefore l) (ha : ∀ x ∈ l, (x.2).isSome = true)
    (n : ℕ) : (l.take n).filter posScoreB = (l.filter posScoreB).take n := by
  induction l generalizing n with
  | nil => simp
  | cons x xs ih =>
    cases n with
    | zero => simp
    | succ m =>
      rw [List.take_succ_cons]
      by_cases hp : posScoreB x = true
      · rw [List.filter_cons_of_pos hp, List.filter_cons_of_pos hp,
          List.take_succ_cons]
        exact congrArg (fun t => x :: t)
          (ih hs.of_cons (fun y hy => ha y (List.mem_cons_of_mem x hy)) m)
      · obtain ⟨s, hs2⟩ := Option.isSome_iff_exists.mp (ha x (List.mem_cons_self x xs))
        have hsle : s ≤ 0 := by
          by_contra hgt
          push_neg at hgt
          exact hp (posScoreB_eq_true.mpr ⟨s, hs2, hgt⟩)
        have hall : ∀ y ∈ xs, ¬posScoreB y = true := by
          intro y hy hpy
          have hsb := List.rel_of_sorted_cons hs y hy
          obtain ⟨t, ht, htpos⟩ := posScoreB_eq_true.mp hpy
          unfold scoreBefore at hsb
          rw [hs2, ht] at hsb
          exact absurd hsb (by simp only [jGe]; push_neg; exact lt_of_le_of_lt hsle htpos)
        have h1 : xs.filter posScoreB = [] := List.filter_eq_nil_iff.mpr hall
        have h2 : (xs.take m).filter posScoreB = [] :=
          List.filter_eq_nil_iff.mpr (fun y hy => hall y (List.mem_of_mem_take hy))
        rw [List.filter_cons_of_neg (by simpa using hp),
          List.filter_cons_of_neg (by simpa using hp), h1, h2, List.take_nil]

/-- C3: for dimension-compatible stores (every candidate vector at least as
long as the query vector, so every cosine score is a real number), `search` —
which sorts descending, slices to `topN`, then drops nonpositive scores —
returns exactly the list obtained by sorting descending, dropping entries
with nonpositive score, and then taking the top `N`. -/
theorem C3_slice_filter_equivalence (q : List ℝ) (n : ℕ) (af : Option String)
    (all : List VectorRecord)
    (h : ∀ r ∈ searchCandidates af all, q.length ≤ r.vector.length) :
    search q n af all =
      ((List.insertionSort scoreBefore (searchScored q af all)).filter
        posScoreB).take n := by
  unfold search
  apply sorted_take_filter_comm
  · exact List.sorted_insertionSort scoreBefore (searchScored q af all)
  · intro x hx
    obtain ⟨hc, hcos⟩ := mem_searchScored ((List.mem_insertionSort scoreBefore).mp hx)
    obtain ⟨s, hcs⟩ := cosine_some_of_le q x.1.vector (h x.1 hc)
    rw [hcos, hcs]
    rfl

/-- C3 witness: the equivalence applied at the one-record store `[recA]`
with the compatible query `[1]`. -/
theorem C3_slice_filter_equivalence_witness :
    (∀ r ∈ searchCandidates none [recA], ([(1 : ℝ)]).length ≤ r.vector.length) ∧
    search [(1 : ℝ)] 1 none [recA] =
      ((List.insertionSort scoreBefore (searchScored [(1 : ℝ)] none [recA])).filter
        posScoreB).take 1 := by
  have hlen : ∀ r ∈ searchCandidates none [recA], ([(1 : ℝ)]).length ≤ r.vector.length := by
    intro r hr
    rw [show searchCandidates none [recA] = [recA] from rfl, List.mem_singleton] at hr
    rw [hr]
    norm_num [recA]
  exact ⟨hlen, C3_slice_filter_equivalence [(1 : ℝ)] 1 none [recA] hlen⟩

/-! ## Claim C4: shape of the ranked output of handleMatch -/

theorem rank_pipe_output (l : List (VectorRecord × JNum)) :
    List.Sorted scoreBefore
      (((List.insertionSort scoreBefore l).take 5).filter posScoreB)
    ∧ (∀ x ∈ ((List.insertionSort scoreBefore l).take 5).filter posScoreB,
        ∃ s : ℝ, x.2 = some s ∧ 0 < s)
    ∧ (((List.insertionSort scoreBefore l).take 5).filter posScoreB).length ≤ 5 := by
  refine ⟨?_, ?_, ?_⟩
  · exact List.Pairwise.sublist
      (List.Sublist.trans (List.filter_sublist _) (List.take_sublist 5 _))
      (List.sorted_insertionSort scoreBefore l)
  · intro x hx
    exact posScoreB_eq_true.mp (List.mem_filter.mp hx).2
  · exact le_trans (List.length_filter_le posScoreB _) (by simp [List.length_take])

/-- C4: every result list of the rank stage of `handleMatch` is sorted
non-increasing by final score, contains only results with positive final
score, and has at most 5 entries. -/
theorem C4_rank_output (stopWordSet : List String) (minLen : ℕ)
    (model : VocabModel) (records : List VectorRecord)
    (history : List UploadHistoryEntry) (context : String)
    (accept : Option String) (now : ℝ) :
    List.Sorted scoreBefore
      (handleMatchTop stopWordSet minLen model records history context accept now)
    ∧ (∀ x ∈ handleMatchTop stopWordSet minLen model records history context accept now,
        ∃ s : ℝ, x.2 = some s ∧ 0 < s)
    ∧ (handleMatchTop stopWordSet minLen model records history context accept now).length ≤ 5 :=
  rank_pipe_output _

/-! ## Claim C5: the four weight profiles -/

/-- C5: each of the four weight profiles of the rank blender sums to `1.0`
within `±0.01` (in fact exactly `1`), and in the two profiles where the
content signal is not useful the content (tfidf) weight is exactly `0`. -/
theorem C5_weight_profiles (u h : Bool) :
    |weightSum (weightsFor u h) - 1| ≤ 0.01 ∧ (weightsFor false h).tfidf = 0 := by
  cases u <;> cases h <;> refine ⟨?_, ?_⟩ <;>
    norm_num [weightsFor, weightSum, abs_le]

/-! ## Lemmas about the association-list model of JavaScript Maps -/

theorem alGet_cons {α : Type} (e : String × α) (es : List (String × α))
    (k : String) :
    alGet (e :: es) k = if e.1 == k then some e.2 else alGet es k := by
  by_cases h : (e.1 == k) = true <;> simp [alGet, List.find?, h]

theorem alGet_alSet_self {α : Type} (m : List (String × α)) (k : String) (v : α) :
    alGet (alSet m k v) k = some v := by
  induction m with
  | nil => simp [alSet, alGet, List.find?]
  | cons e es ih =>
    by_cases h : (e.1 == k) = true
    · simp [alSet, h, alGet, List.find?]
    · simp only [alSet, h, if_false, Bool.false_eq_true]
      rw [alGet_cons, if_neg (by simp [h]), ih]

theorem alGet_alSet_ne {α : Type} (m : List (String × α)) (k k2 : String)
    (v : α) (h : k2 ≠ k) : alGet (alSet m k v) k2 = alGet m k2 := by
  induction m with
  | nil =>
    simp only [alSet]
    rw [alGet_cons, if_neg (by simpa using Ne.symm h)]
  | cons e es ih =>
    by_cases he : (e.1 == k) = true
    · have he2 : e.1 = k := by simpa using he
      simp only [alSet, he, if_true]
      rw [alGet_cons, alGet_cons, if_neg (by simpa using Ne.symm h),
        if_neg (by rw [he2]; simpa using Ne.symm h)]
    · simp only [alSet, he, if_false, Bool.false_eq_true]
      rw [alGet_cons, alGet_cons, ih]

/-! ## Lemmas about foldl max -/

theorem le_foldl_max_init : ∀ (ts : List ℝ) (t : ℝ), t ≤ ts.foldl max t := by
  intro ts
  induction ts with
  | nil => exact fun t => le_refl t
  | cons u ts ih =>
    intro t
    rw [List.foldl_cons]
    exact le_trans (le_max_left t u) (ih (max t u))

theorem mem_le_foldl_max : ∀ (ts : List ℝ) (t u : ℝ), u ∈ ts → u ≤ ts.foldl max t := by
  intro ts
  induction ts with
  | nil => intro t u hu; exact absurd hu (List.not_mem_nil u)
  | cons v ts ih =>
    intro t u hu
    rw [List.foldl_cons]
    rcases List.mem_cons.mp hu with hv | hts
    · rw [hv]
      exact le_trans (le_max_right t v) (le_foldl_max_init ts (max t v))
    · exact ih (max t v) u hts

theorem foldl_max_mem : ∀ (ts : List ℝ) (t : ℝ), ts.foldl max t ∈ t :: ts := by
  intro ts
  induction ts with
  | nil => intro t; exact List.mem_singleton.mpr rfl
  | cons u ts ih =>
    intro t
    rw [List.foldl_cons]
    rcases List.mem_cons.mp (ih (max t u)) with hm | hm
    · rcases max_choice t u with hc | hc
      · exact List.mem_cons.mpr (Or.inl (by rw [hm, hc]))
      · exact List.mem_cons.mpr (Or.inr (List.mem_cons.mpr (Or.inl (by rw [hm, hc]))))
    · exact List.mem_cons.mpr (Or.inr (List.mem_cons.mpr (Or.inr hm)))

/-! ## The history-map fold characterization -/

theorem buildHistoryMap_get (id : String) :
    ∀ (l : List UploadHistoryEntry) (m : List (String × ℕ × ℝ)),
      alGet (l.foldl (fun m h =>
        match alGet m h.fileId with
        | none => alSet m h.fileId (1, h.timestamp)
        | some e => alSet m h.fileId (e.1 + 1, max e.2 h.timestamp)) m) id =
      match alGet m id with
      | some e => some (e.1 + (mtsOf id l).length, (mtsOf id l).foldl max e.2)
      | none =>
        match mtsOf id l with
        | [] => none
        | t :: ts => some (ts.length + 1, ts.foldl max t) := by
  intro l
  induction l with
  | nil =>
    intro m
    simp only [List.foldl_nil, mtsOf, List.filter_nil, List.map_nil,
      List.length_nil, List.foldl_nil]
    cases alGet m id with
    | none => rfl
    | some e => rfl
  | cons h l2 ih =>
    intro m
    rw [List.foldl_cons]
    by_cases hid : h.fileId = id
    · have hmts : mtsOf id (h :: l2) = h.timestamp :: mtsOf id l2 := by
        simp only [mtsOf, List.filter_cons, hid, beq_self_eq_true, if_true,
          List.map_cons]
      cases hm : alGet m id with
      | some e =>
        rw [show (match alGet m h.fileId with
            | none => alSet m h.fileId (1, h.timestamp)
            | some e => alSet m h.fileId (e.1 + 1, max e.2 h.timestamp)) =
            alSet m id (e.1 + 1, max e.2 h.timestamp) from by rw [hid, hm]]
        rw [ih (alSet m id (e.1 + 1, max e.2 h.timestamp)), alGet_alSet_self]
        simp only [hmts, List.length_cons, List.foldl_cons]
        have : e.1 + 1 + (mtsOf id l2).length = e.1 + ((mtsOf id l2).length + 1) := by
          omega
        rw [this]
      | none =>
        rw [show (match alGet m h.fileId with
            | none => alSet m h.fileId (1, h.timestamp)
            | some e => alSet m h.fileId (e.1 + 1, max e.2 h.timestamp)) =
            alSet m id (1, h.timestamp) from by rw [hid, hm]]
        rw [ih (alSet m id (1, h.timestamp)), alGet_alSet_self]
        simp only [hmts]
        have : (1 : ℕ) + (mtsOf id l2).length = (mtsOf id l2).length + 1 := by
          omega
        rw [this]
    · have hmts : mtsOf id (h :: l2) = mtsOf id l2 := by
        simp only [mtsOf, List.filter_cons, beq_eq_false_iff_ne.mpr hid,
          Bool.false_eq_true, if_false]
      have hstep : alGet (match alGet m h.fileId with
          | none => alSet m h.fileId (1, h.timestamp)
          | some e => alSet m h.fileId (e.1 + 1, max e.2 h.timestamp)) id =
          alGet m id := by
        cases alGet m h.fileId with
        | none => exact alGet_alSet_ne m h.fileId id _ (fun he => hid he.symm)
        | some e => exact alGet_alSet_ne m h.fileId id _ (fun he => hid he.symm)
      rw [ih, hstep, hmts]

/-! ## Claim C6: the history boost -/

/-- C6: the history boost is `0` when the host history has no entry for the
candidate; otherwise it is `max(0.1, 1.0 - daysAgo/90)` where the elapsed
time is measured from the most recent matching entry (the maximum matching
timestamp); under the precondition that all entry timestamps are at most
`now`, the boost lies in `[0.1, 1]`; and the boost is non-increasing as the
elapsed time grows. -/
theorem C6_history_boost (history : List UploadHistoryEntry) (id : String)
    (now : ℝ) :
    ((∀ h ∈ history, h.fileId ≠ id) → historyBoostOf history id now = 0)
    ∧ (∀ t ts, mtsOf id history = t :: ts →
        historyBoostOf history id now =
          max 0.1 (1 - ((now - ts.foldl max t) / ONE_DAY) / 90)
        ∧ ts.foldl max t ∈ mtsOf id history
        ∧ (∀ u ∈ mtsOf id history, u ≤ ts.foldl max t)
        ∧ ((∀ h ∈ history, h.timestamp ≤ now) →
            0.1 ≤ historyBoostOf history id now ∧ historyBoostOf history id now ≤ 1))
    ∧ (∀ now2, now ≤ now2 →
        historyBoostOf history id now2 ≤ historyBoostOf history id now) := by
  have hget : alGet (buildHistoryMap history) id =
      match mtsOf id history with
      | [] => none
      | t :: ts => some (ts.length + 1, ts.foldl max t) := by
    have h0 := buildHistoryMap_get id history []
    exact h0
  refine ⟨?_, ?_, ?_⟩
  · intro hne
    have hmts : mtsOf id history = [] := by
      simp only [mtsOf, List.map_eq_nil_iff, List.filter_eq_nil_iff]
      intro h hh
      simpa using hne h hh
    rw [hmts] at hget
    unfold historyBoostOf
    rw [hget]
  · intro t ts hmts
    rw [hmts] at hget
    have hb : historyBoostOf history id now =
        max 0.1 (1 - ((now - ts.foldl max t) / ONE_DAY) / 90) := by
      unfold historyBoostOf
      rw [hget]
    refine ⟨hb, ?_, ?_, ?_⟩
    · rw [hmts]
      exact foldl_max_mem ts t
    · intro u hu
      rw [hmts] at hu
      rcases List.mem_cons.mp hu with hut | huts
      · rw [hut]
        exact le_foldl_max_init ts t
      · exact mem_le_foldl_max ts t u huts
    · intro hts
      have hlast : ts.foldl max t ≤ now := by
        have hmem : ts.foldl max t ∈ mtsOf id history := by
          rw [hmts]
          exact foldl_max_mem ts t
        unfold mtsOf at hmem
        obtain ⟨h, hh, hts2⟩ := List.mem_map.mp hmem
        rw [← hts2]
        exact hts h (List.mem_of_mem_filter hh)
      have hd : 0 ≤ ((now - ts.foldl max t) / ONE_DAY) / 90 := by
        apply div_nonneg (div_nonneg (by linarith) (by norm_num [ONE_DAY]))
        norm_num
      rw [hb]
      exact ⟨le_max_left _ _, max_le (by norm_num) (by linarith)⟩
  · intro now2 h12
    unfold historyBoostOf
    cases halget : alGet (buildHistoryMap history) id with
    | none => exact le_refl 0
    | some e =>
      show max 0.1 (1 - ((now2 - e.2) / ONE_DAY) / 90) ≤
        max 0.1 (1 - ((now - e.2) / ONE_DAY) / 90)
      have hmono : ((now - e.2) / ONE_DAY) / 90 ≤ ((now2 - e.2) / ONE_DAY) / 90 := by
        have h1 : (now - e.2) / ONE_DAY ≤ (now2 - e.2) / ONE_DAY :=
          (div_le_div_iff_of_pos_right (by norm_num [ONE_DAY])).mpr (by linarith)
        exact (div_le_div_iff_of_pos_right (by norm_num)).mpr h1
      exact max_le_max (le_refl (0.1 : ℝ)) (by linarith)

/-- C6 witness: the history-boost characterization applied to a one-entry
history at timestamp `0` queried at `now = 0`, to an id with no entry, and
at a later `now`. -/
theorem C6_history_boost_witness :
    mtsOf "docs/a.txt" [histEntry "docs/a.txt" 0] = [(0 : ℝ)] ∧
    historyBoostOf [histEntry "docs/a.txt" 0] "docs/a.txt" 0 =
      max 0.1 (1 - ((0 - ([] : List ℝ).foldl max 0) / ONE_DAY) / 90) ∧
    0.1 ≤ historyBoostOf [histEntry "docs/a.txt" 0] "docs/a.txt" 0 ∧
    historyBoostOf [histEntry "docs/a.txt" 0] "docs/a.txt" 0 ≤ 1 ∧
    historyBoostOf [histEntry "docs/a.txt" 0] "zzz" 0 = 0 ∧
    historyBoostOf [histEntry "docs/a.txt" 0] "docs/a.txt" 1 ≤
      historyBoostOf [histEntry "docs/a.txt" 0] "docs/a.txt" 0 := by
  have hmts : mtsOf "docs/a.txt" [histEntry "docs/a.txt" 0] = [(0 : ℝ)] := by
    simp [mtsOf, histEntry]
  have hts : ∀ h ∈ [histEntry "docs/a.txt" 0], h.timestamp ≤ (0 : ℝ) := by
    intro h hh
    rw [List.mem_singleton] at hh
    rw [hh]
    simp [histEntry]
  have h2 := (C6_history_boost [histEntry "docs/a.txt" 0] "docs/a.txt" 0).2.1 0 [] hmts
  have h1 := (C6_history_boost [histEntry "docs/a.txt" 0] "zzz" 0).1 (by
    intro h hh
    rw [List.mem_singleton] at hh
    rw [hh]
    decide)
  have h3 := (C6_history_boost [histEntry "docs/a.txt" 0] "docs/a.txt" 0).2.2 1
    (by norm_num)
  exact ⟨hmts, h2.1, (h2.2.2.2 hts).1, (h2.2.2.2 hts).2, h1, h3⟩

/-! ## Claim C7: folder-frequency boosts -/

theorem alSet_values_sum (m : List (String × ℕ)) (k : String) :
    ((alSet m k ((alGet m k).getD 0 + 1)).map (fun e => e.2)).sum =
      (m.map (fun e => e.2)).sum + 1 := by
  induction m with
  | nil => simp [alSet, alGet]
  | cons e es ih =>
    by_cases h : (e.1 == k) = true
    · rw [alGet_cons, if_pos h]
      simp only [alSet, h, if_true, Option.getD_some, List.map_cons,
        List.sum_cons]
      omega
    · rw [alGet_cons, if_neg h]
      simp only [alSet, h, Bool.false_eq_true, if_false, List.map_cons,
        List.sum_cons, ih]
      omega

theorem foldFreq_total :
    ∀ (l : List UploadHistoryEntry) (m : List (String × ℕ)),
      ((l.foldl (fun m h =>
        alSet m (folderOf h.fileId) ((alGet m (folderOf h.fileId)).getD 0 + 1)) m).map
        (fun e => e.2)).sum = (m.map (fun e => e.2)).sum + l.length := by
  intro l
  induction l with
  | nil => intro m; simp
  | cons h l2 ih =>
    intro m
    rw [List.foldl_cons, ih, alSet_values_sum, List.length_cons]
    omega

theorem foldFreq_get (f : String) :
    ∀ (l : List UploadHistoryEntry) (m : List (String × ℕ)),
      (alGet (l.foldl (fun m h =>
        alSet m (folderOf h.fileId) ((alGet m (folderOf h.fileId)).getD 0 + 1)) m) f).getD 0 =
      (alGet m f).getD 0 + (l.map (fun h => folderOf h.fileId)).count f := by
  intro l
  induction l with
  | nil => intro m; simp
  | cons h l2 ih =>
    intro m
    rw [List.foldl_cons, ih]
    by_cases hf : f = folderOf h.fileId
    · rw [← hf, alGet_alSet_self]
      simp only [Option.getD_some, List.map_cons, List.count_cons,
        beq_iff_eq, hf]
      simp
      omega
    · rw [alGet_alSet_ne m (folderOf h.fileId) f _ hf]
      simp only [List.map_cons, List.count_cons]
      rw [if_neg (by simpa using fun he => hf he.symm)]
      omega

theorem totalFolderUploads_eq (history : List UploadHistoryEntry) :
    totalFolderUploads history = history.length := by
  unfold totalFolderUploads buildFolderFreq
  simpa using foldFreq_total history []

theorem folderFreq_get (history : List UploadHistoryEntry) (f : String) :
    (alGet (buildFolderFreq history) f).getD 0 =
      (history.map (fun h => folderOf h.fileId)).count f := by
  unfold buildFolderFreq
  simpa [alGet] using foldFreq_get f history []

theorem list_sum_div {α : Type} (l : List α) (f : α → ℝ) (c : ℝ) :
    (l.map (fun x => f x / c)).sum = (l.map f).sum / c := by
  induction l with
  | nil => simp
  | cons x xs ih => simp [add_div, ih]

/-- C7: for a non-empty host history, the folder-frequency boosts over all
distinct folders appearing in that history sum to exactly `1`; with no
history every candidate folder boost is `0`. -/
theorem C7_folder_boost (history : List UploadHistoryEntry) :
    (history ≠ [] →
      (((history.map (fun h => folderOf h.fileId)).dedup).map
        (fun f => folderBoostOfFolder history f)).sum = 1)
    ∧ ∀ path, folderBoostOf ([] : List UploadHistoryEntry) path = 0 := by
  constructor
  · intro hne
    have hpos : 0 < totalFolderUploads history := by
      rw [totalFolderUploads_eq]
      exact List.length_pos.mpr hne
    simp only [folderBoostOfFolder, hpos, if_true, folderFreq_get]
    rw [list_sum_div]
    have hcast : (((history.map (fun h => folderOf h.fileId)).dedup.map
        (fun f => (((history.map (fun h => folderOf h.fileId)).count f : ℕ) : ℝ))).sum) =
        (((history.map (fun h => folderOf h.fileId)).length : ℕ) : ℝ) := by
      rw [show ((history.map (fun h => folderOf h.fileId)).dedup.map
          (fun f => (((history.map (fun h => folderOf h.fileId)).count f : ℕ) : ℝ))) =
          (((history.map (fun h => folderOf h.fileId)).dedup.map
            (fun f => (history.map (fun h => folderOf h.fileId)).count f)).map
            (fun n : ℕ => (n : ℝ))) from by rw [List.map_map]; rfl]
      rw [← Nat.cast_list_sum, List.sum_map_count_dedup_eq_length]
    rw [hcast, totalFolderUploads_eq, List.length_map]
    exact div_self (by
      have := List.length_pos.mpr hne
      positivity)
  · intro path
    rfl

/-- C7 witness: the folder-boost sum applied to the concrete two-folder
history `histW`, and the empty-history case at a concrete path. -/
theorem C7_folder_boost_witness :
    histW ≠ [] ∧
    (((histW.map (fun h => folderOf h.fileId)).dedup).map
      (fun f => folderBoostOfFolder histW f)).sum = 1 ∧
    folderBoostOf ([] : List UploadHistoryEntry) "a/b.pdf" = 0 :=
  ⟨by simp [histW], (C7_folder_boost histW).1 (by simp [histW]),
    (C7_folder_boost []).2 "a/b.pdf"⟩

/-! ## Claim C8: the keyword-overlap scores are overlap coefficients -/

theorem countP_dedup_inter (l1 l2 : List String) :
    l1.dedup.countP (fun t => (l2.dedup).contains t) =
      (l1.toFinset ∩ l2.toFinset).card := by
  rw [List.countP_eq_length_filter]
  rw [← List.toFinset_card_of_nodup (List.Nodup.filter _ l1.nodup_dedup)]
  rw [List.toFinset_filter]
  congr 1
  ext a
  simp [List.elem_iff]

theorem dedup_length_eq_zero_iff (l : List String) :
    l.dedup.length = 0 ↔ l.toFinset = ∅ := by
  rw [show l.dedup.length = l.toFinset.card from rfl]
  exact Finset.card_eq_zero

theorem overlap_core (l1 l2 : List String) :
    (if l1.dedup.length = 0 ∨ l2.dedup.length = 0 then (0 : ℝ)
     else ((l1.dedup.countP (fun t => (l2.dedup).contains t) : ℕ) : ℝ) /
       ((min l1.dedup.length l2.dedup.length : ℕ) : ℝ)) =
    if l1.toFinset = ∅ ∨ l2.toFinset = ∅ then 0
    else overlapCoeff l1.toFinset l2.toFinset := by
  have hcond : (l1.dedup.length = 0 ∨ l2.dedup.length = 0) ↔
      (l1.toFinset = ∅ ∨ l2.toFinset = ∅) :=
    or_congr (dedup_length_eq_zero_iff l1) (dedup_length_eq_zero_iff l2)
  by_cases hc : l1.toFinset = ∅ ∨ l2.toFinset = ∅
  · rw [if_pos hc, if_pos (hcond.mpr hc)]
  · rw [if_neg hc, if_neg (fun h => hc (hcond.mp h))]
    unfold overlapCoeff
    rw [countP_dedup_inter]
    rfl

theorem overlap_core_content (lf lc : List String) :
    (if lf.dedup.length = 0 ∨ lc.dedup.length = 0 then (0 : ℝ)
     else ((lc.dedup.countP (fun t => (lf.dedup).contains t) : ℕ) : ℝ) /
       ((min lf.dedup.length lc.dedup.length : ℕ) : ℝ)) =
    if lf.toFinset = ∅ ∨ lc.toFinset = ∅ then 0
    else overlapCoeff lf.toFinset lc.toFinset := by
  have hcond : (lf.dedup.length = 0 ∨ lc.dedup.length = 0) ↔
      (lf.toFinset = ∅ ∨ lc.toFinset = ∅) :=
    or_congr (dedup_length_eq_zero_iff lf) (dedup_length_eq_zero_iff lc)
  by_cases hc : lf.toFinset = ∅ ∨ lc.toFinset = ∅
  · rw [if_pos hc, if_pos (hcond.mpr hc)]
  · rw [if_neg hc, if_neg (fun h => hc (hcond.mp h))]
    unfold overlapCoeff
    rw [countP_dedup_inter lc lf, Finset.inter_comm]
    rfl

/-- C8: `computePathNameScore` equals the overlap coefficient of the
distinct filtered tokens of the separator-normalized path against the
distinct filtered tokens of the query (`0` when either set is empty), and
`computeContentOverlap` applies the same overlap-coefficient formula to the
text-preview tokens against the query tokens. -/
theorem C8_overlap_coefficient (stopWordSet : List String) (minLen : ℕ)
    (filePath context textPreview : String) :
    computePathNameScore stopWordSet minLen filePath context =
      (if (tokenizeFiltered stopWordSet minLen (replaceSeps filePath)).toFinset = ∅ ∨
          (tokenizeFiltered stopWordSet minLen context).toFinset = ∅ then 0
       else overlapCoeff
         (tokenizeFiltered stopWordSet minLen (replaceSeps filePath)).toFinset
         (tokenizeFiltered stopWordSet minLen context).toFinset)
    ∧ computeContentOverlap stopWordSet minLen textPreview context =
      (if (tokenizeFiltered stopWordSet minLen textPreview).toFinset = ∅ ∨
          (tokenizeFiltered stopWordSet minLen context).toFinset = ∅ then 0
       else overlapCoeff
         (tokenizeFiltered stopWordSet minLen textPreview).toFinset
         (tokenizeFiltered stopWordSet minLen context).toFinset) := by
  constructor
  · exact overlap_core (tokenizeFiltered stopWordSet minLen (replaceSeps filePath))
      (tokenizeFiltered stopWordSet minLen context)
  · exact overlap_core_content (tokenizeFiltered stopWordSet minLen textPreview)
      (tokenizeFiltered stopWordSet minLen context)

/-! ## Claim C9: graceful degradation of the accept filter -/

theorem searchCandidates_some (af : String) (all : List VectorRecord)
    (haf : af ≠ "") :
    searchCandidates (some af) all =
      if 0 < (all.filter (matchesAccept (acceptsOf af))).length then
        all.filter (matchesAccept (acceptsOf af))
      else all := by
  show (if af = "" then all
    else if 0 < (all.filter (matchesAccept (acceptsOf af))).length then
      all.filter (matchesAccept (acceptsOf af))
    else all) = _
  rw [if_neg haf]

/-- C9: if a nonempty accept filter matches zero stored records, `search`
behaves exactly as the unfiltered search (the filter is ignored rather than
returning an empty set); if it matches at least one record, every returned
result is a matching record. -/
theorem C9_accept_filter (q : List ℝ) (n : ℕ) (af : String)
    (all : List VectorRecord) (haf : af ≠ "") :
    ((all.filter (matchesAccept (acceptsOf af)) = []) →
      search q n (some af) all = search q n none all)
    ∧ ((all.filter (matchesAccept (acceptsOf af)) ≠ []) →
      ∀ x ∈ search q n (some af) all, matchesAccept (acceptsOf af) x.1 = true) := by
  constructor
  · intro hfil
    have hcand : searchCandidates (some af) all = searchCandidates none all := by
      rw [searchCandidates_some af all haf, hfil]
      rfl
    unfold search searchScored
    rw [hcand]
  · intro hne x hx
    have hcand : searchCandidates (some af) all =
        all.filter (matchesAccept (acceptsOf af)) := by
      rw [searchCandidates_some af all haf,
        if_pos (List.length_pos.mpr hne)]
    obtain ⟨hss, _⟩ := mem_search hx
    obtain ⟨hc, _⟩ := mem_searchScored hss
    rw [hcand] at hc
    exact (List.mem_filter.mp hc).2

/-- C9 witness: a filter matching nothing (`Accept: .xyz` over a store with
one text file) degrades to the unfiltered search, and a filter matching one
record (`Accept: .txt` over a text file and a PDF) returns only matching
records. -/
theorem C9_accept_filter_witness :
    (".xyz" : String) ≠ "" ∧
    [recA].filter (matchesAccept (acceptsOf ".xyz")) = [] ∧
    search [(1 : ℝ)] 5 (some ".xyz") [recA] = search [(1 : ℝ)] 5 none [recA] ∧
    (".txt" : String) ≠ "" ∧
    [recA, recPdf].filter (matchesAccept (acceptsOf ".txt")) ≠ [] ∧
    ∀ x ∈ search [(1 : ℝ)] 5 (some ".txt") [recA, recPdf],
      matchesAccept (acceptsOf ".txt") x.1 = true := by
  have h1 : [recA].filter (matchesAccept (acceptsOf ".xyz")) = [] := by
    simp [List.filter_cons,
      show matchesAccept (acceptsOf ".xyz") recA = false from by decide]
  have h2 : [recA, recPdf].filter (matchesAccept (acceptsOf ".txt")) ≠ [] := by
    simp [List.filter_cons,
      show matchesAccept (acceptsOf ".txt") recA = true from by decide]
  exact ⟨by decide, h1,
    (C9_accept_filter [(1 : ℝ)] 5 ".xyz" [recA] (by decide)).1 h1,
    by decide, h2,
    (C9_accept_filter [(1 : ℝ)] 5 ".txt" [recA, recPdf] (by decide)).2 h2⟩

/-! ## Claim C10: the low-signal fallback of handleMatch -/

theorem foldl_jmax_le (c : ℝ) :
    ∀ (l : List (VectorRecord × JNum)) (acc : JNum),
      (∀ s : ℝ, acc = some s → s ≤ c) →
      (∀ x ∈ l, ∀ s : ℝ, x.2 = some s → s ≤ c) →
      ∀ s : ℝ, l.foldl (fun a r => jmax a r.2) acc = some s → s ≤ c := by
  intro l
  induction l with
  | nil => intro acc hacc _ s hs; exact hacc s hs
  | cons x xs ih =>
    intro acc hacc hall s hs
    rw [List.foldl_cons] at hs
    refine ih (jmax acc x.2) ?_ (fun y hy => hall y (List.mem_cons_of_mem x hy)) s hs
    intro t ht
    cases hacs : acc with
    | none =>
      rw [hacs, show jmax none x.2 = none from by
        unfold jmax
        exact jbin_none_left _ _] at ht
      exact Option.noConfusion ht
    | some a =>
      cases hxs : x.2 with
      | none =>
        rw [hacs, hxs] at ht
        exact Option.noConfusion ht
      | some b =>
        rw [hacs, hxs] at ht
        have htm : max a b = t := Option.some_inj.mp (ht : some (max a b) = some t)
        rw [← htm]
        exact max_le (hacc a hacs) (hall x (List.mem_cons_self x xs) b hxs)

/-- C10: whenever the query vector is empty, or every TF-IDF search
candidate scores at most `0.05`, `handleMatch` replaces the candidate set
with every stored record at content score `0` — so the accept filter and the
top-15 cut have no effect on which records are ranked. -/
theorem C10_low_signal_fallback (model : VocabModel)
    (records : List VectorRecord) (context : String) (accept : Option String)
    (h : vectorize model (tokenize context) = [] ∨
      ∀ x ∈ tfidfResultsOf model records context accept,
        ∀ s : ℝ, x.2 = some s → s ≤ 0.05) :
    handleMatchCandidates model records context accept =
      records.map (fun r => (r, jn 0)) := by
  have huse : tfidfUsefulOf model records context accept = false := by
    unfold tfidfUsefulOf maxTfidfOf
    rcases h with hq | hb
    · rw [show tfidfResultsOf model records context accept = [] from by
        unfold tfidfResultsOf
        rw [hq]
        rfl]
      show jltB (jn 0.05) (jn 0) = false
      norm_num [jltB, jn]
    · cases hres : tfidfResultsOf model records context accept with
      | nil =>
        show jltB (jn 0.05) (jn 0) = false
        norm_num [jltB, jn]
      | cons x xs =>
        show jltB (jn 0.05) (xs.foldl (fun acc r => jmax acc r.2) x.2) = false
        cases hmax : xs.foldl (fun acc r => jmax acc r.2) x.2 with
        | none => exact jltB_none_right (jn 0.05)
        | some s =>
          have hs : s ≤ 0.05 := foldl_jmax_le 0.05 xs x.2
            (fun t ht => hb x (by rw [hres]; exact List.mem_cons_self x xs) t ht)
            (fun y hy t ht => hb y (by rw [hres]; exact List.mem_cons_of_mem x hy) t ht)
            s hmax
          rw [show jn 0.05 = some 0.05 from rfl, jltB_some_some]
          exact decide_eq_false (not_lt.mpr hs)
  unfold handleMatchCandidates
  rw [huse]
  simp

/-- C10 witness: with the empty vocabulary the query vector is empty, and
the fallback ranks every stored record at content score `0`, ignoring the
accept filter. -/
theorem C10_low_signal_fallback_witness :
    vectorize vocabM0 (tokenize "please upload your resume") = [] ∧
    handleMatchCandidates vocabM0 [recA, recPdf] "please upload your resume"
      (some ".pdf") = [recA, recPdf].map (fun r => (r, jn 0)) := by
  have hq : vectorize vocabM0 (tokenize "please upload your resume") = [] := by
    unfold vectorize vocabM0
    simp
  exact ⟨hq, C10_low_signal_fallback vocabM0 [recA, recPdf]
    "please upload your resume" (some ".pdf") (Or.inl hq)⟩

end XUpload
